import Mathlib

/-!
Shallow embedding of `src/src/cloud_fill.cpp` (the NSPI cloud-fill kernel of
the teamlucc package) and proofs about it.

The C++ code works over `double`; the embedding is parametric over a linear
ordered field `α` together with a square-root function `sqrt : α → α`, so
that every definition is executable over a computable field.  The faithful
reading of the source is `α := ℝ` with `Real.sqrt`, and every concrete
evaluation in this file uses exactly that instance, on inputs engineered so
that each argument ever passed to `sqrt` is a perfect square.

Images are `(row, col, band)`-indexed functions backed by the column-major
flat indexing the source uses (`col = i / rows`, `row = i - col * rows`).
Armadillo `sort_index` uses an unstable sort, so the order of candidates at
equal distances is unspecified by the source; the embedding fixes ties by
candidate index.  Concrete inputs used for counterexamples have no ties.
-/

namespace CloudFill

/-- Inputs of `cloud_fill`: the two images, the mask, the dimensions and the
tuning parameters, exactly the formal parameters of the C++ entry point. -/
structure Config (α : Type) where
  R : ℕ
  C : ℕ
  B : ℕ
  cloudy : ℕ → ℕ → ℕ → α
  clear : ℕ → ℕ → ℕ → α
  mask : ℕ → ℕ → ℤ
  num_class : ℕ
  min_pixel : ℕ
  cloud_nbh : ℕ
  DN_min : α
  DN_max : α

/-- Column-major row decomposition, source: `cloud_row_i = cloud_vec_i - cloud_col_i * dims(0)`. -/
def rowOf (R i : ℕ) : ℕ := i - (i / R) * R

/-- Column-major column decomposition, source: `cloud_col_i = floor(cloud_vec_i / dims(0))`. -/
def colOf (R i : ℕ) : ℕ := i / R

/-- Minimum of a list (Armadillo `min`), total via a default for the empty list. -/
def minL {β : Type} [LinearOrder β] (d : β) (l : List β) : β := l.foldr min (l.headD d)

/-- Maximum of a list (Armadillo `max`), total via a default for the empty list. -/
def maxL {β : Type} [LinearOrder β] (d : β) (l : List β) : β := l.foldr max (l.headD d)

variable {α : Type} [LinearOrderedField α]

/-- Armadillo `mean` of a vector. -/
def meanL (l : List α) : α := l.sum / (l.length : α)

/-- Sample variance (Armadillo norm type 0, divisor `N - 1`). -/
def sampleVar (l : List α) : α :=
  (l.map (fun x => (x - meanL l) ^ 2)).sum / ((l.length - 1 : ℕ) : α)

/-- Armadillo `stddev` with norm type 0. -/
def stddevL (sqrt : α → α) (l : List α) : α := sqrt (sampleVar l)

/-- Source: `uvec cloud_vec_i = find(cloud_mask == cloud_code)`, ascending
column-major flat indices of the cells of region `k`. -/
def cloud_vec_i (cfg : Config α) (k : ℤ) : List ℕ :=
  (List.range (cfg.R * cfg.C)).filter
    (fun i => decide (cfg.mask (rowOf cfg.R i) (colOf cfg.R i) = k))

/-- Rows of the cells of region `k`. -/
def cloud_row_i (cfg : Config α) (k : ℤ) : List ℕ := (cloud_vec_i cfg k).map (rowOf cfg.R)

/-- Columns of the cells of region `k`. -/
def cloud_col_i (cfg : Config α) (k : ℤ) : List ℕ := (cloud_vec_i cfg k).map (colOf cfg.R)

/-- Source: `left_col = min(cloud_col_i) - cloud_nbh`, clamped at 0
(truncated ℕ subtraction performs the `if (left_col < 0) left_col = 0`). -/
def left_col (cfg : Config α) (k : ℤ) : ℕ := minL 0 (cloud_col_i cfg k) - cfg.cloud_nbh

/-- Source: `right_col = max(cloud_col_i) + cloud_nbh`, clamped at `dims(1) - 1`. -/
def right_col (cfg : Config α) (k : ℤ) : ℕ :=
  min (maxL 0 (cloud_col_i cfg k) + cfg.cloud_nbh) (cfg.C - 1)

/-- Source: `up_row = min(cloud_row_i) - cloud_nbh`, clamped at 0. -/
def up_row (cfg : Config α) (k : ℤ) : ℕ := minL 0 (cloud_row_i cfg k) - cfg.cloud_nbh

/-- Source: `down_row = max(cloud_row_i) + cloud_nbh`, clamped at `dims(0) - 1`. -/
def down_row (cfg : Config α) (k : ℤ) : ℕ :=
  min (maxL 0 (cloud_row_i cfg k) + cfg.cloud_nbh) (cfg.R - 1)

/-- Number of rows of the neighborhood window of region `k`. -/
def num_sub_rows (cfg : Config α) (k : ℤ) : ℕ := (down_row cfg k - up_row cfg k) + 1

/-- Number of columns of the neighborhood window of region `k`. -/
def num_sub_cols (cfg : Config α) (k : ℤ) : ℕ := (right_col cfg k - left_col cfg k) + 1

/-- Global row of the window pixel with local column-major flat index `p`. -/
def globalRow (cfg : Config α) (k : ℤ) (p : ℕ) : ℕ :=
  up_row cfg k + rowOf (num_sub_rows cfg k) p

/-- Global column of the window pixel with local column-major flat index `p`. -/
def globalCol (cfg : Config α) (k : ℤ) (p : ℕ) : ℕ :=
  left_col cfg k + colOf (num_sub_rows cfg k) p

/-- Row `p` of the flattened window matrix `sub_clear`. -/
def sub_clear (cfg : Config α) (k : ℤ) (p b : ℕ) : α :=
  cfg.clear (globalRow cfg k p) (globalCol cfg k p) b

/-- Row `p` of the flattened window matrix `sub_cloudy` as copied from the
current cloudy image `img` (which may already contain fills of earlier regions). -/
def sub_cloudy0 (img : ℕ → ℕ → ℕ → α) (cfg : Config α) (k : ℤ) (p b : ℕ) : α :=
  img (globalRow cfg k p) (globalCol cfg k p) b

/-- Element `p` of the flattened window view of the cloud mask. -/
def sub_cloud_mask (cfg : Config α) (k : ℤ) (p : ℕ) : ℤ :=
  cfg.mask (globalRow cfg k p) (globalCol cfg k p)

/-- Source: `sub_clear_vec_i = find(sub_cloud_mask == 0)`, the clear
candidates of the window, ascending local flat indices. -/
def sub_clear_vec_i (cfg : Config α) (k : ℤ) : List ℕ :=
  (List.range (num_sub_rows cfg k * num_sub_cols cfg k)).filter
    (fun p => decide (sub_cloud_mask cfg k p = 0))

/-- Source: `sub_cloud_vec_i = find(sub_cloud_mask == cloud_code)`, the
region pixels inside the window, ascending local flat indices. -/
def sub_cloud_vec_i (cfg : Config α) (k : ℤ) : List ℕ :=
  (List.range (num_sub_rows cfg k * num_sub_cols cfg k)).filter
    (fun p => decide (sub_cloud_mask cfg k p = k))

/-- Source: `similar_th_band = stddev(sub_clear, 0, 0) * 2 / num_class`,
the per-band similarity threshold over all window pixels. -/
def similar_th_band (sqrt : α → α) (cfg : Config α) (k : ℤ) (b : ℕ) : α :=
  stddevL sqrt
      ((List.range (num_sub_rows cfg k * num_sub_cols cfg k)).map
        (fun p => sub_clear cfg k p b)) * 2 / (cfg.num_class : α)

/-- Source: `sub_clear_clear = sub_clear.rows(sub_clear_vec_i)`: the clear
spectrum of candidate number `j`. -/
def sub_clear_clear (cfg : Config α) (k : ℤ) (j b : ℕ) : α :=
  sub_clear cfg k ((sub_clear_vec_i cfg k).getD j 0) b

/-- Source: `sub_cloudy_clear = sub_cloudy.rows(sub_clear_vec_i)`: the cloudy
spectrum of candidate number `j`. -/
def sub_cloudy_clear (img : ℕ → ℕ → ℕ → α) (cfg : Config α) (k : ℤ) (j b : ℕ) : α :=
  sub_cloudy0 img cfg k ((sub_clear_vec_i cfg k).getD j 0) b

/-- Source: `mean_diff = mean(sub_cloudy_clear - sub_clear_clear, 0)`, the
per-band mean cloudy-minus-clear difference over all candidates of the window. -/
def mean_diff (img : ℕ → ℕ → ℕ → α) (cfg : Config α) (k : ℤ) (b : ℕ) : α :=
  meanL ((List.range (sub_clear_vec_i cfg k).length).map
    (fun j => sub_cloudy_clear img cfg k j b - sub_clear_clear cfg k j b))

/-- Local flat window index of the target pixel number `ic` of the region. -/
def target_pix (cfg : Config α) (k : ℤ) (ic : ℕ) : ℕ := (sub_cloud_vec_i cfg k).getD ic 0

/-- Source: `ri = sub_cloud_row_i(ic)`. -/
def target_row (cfg : Config α) (k : ℤ) (ic : ℕ) : ℕ :=
  rowOf (num_sub_rows cfg k) (target_pix cfg k ic)

/-- Source: `ci = sub_cloud_col_i(ic)`. -/
def target_col (cfg : Config α) (k : ℤ) (ic : ℕ) : ℕ :=
  colOf (num_sub_rows cfg k) (target_pix cfg k ic)

/-- Source: `clear_dists`, Euclidean distance of each candidate from the
target pixel in window-local coordinates. -/
def clear_dists (sqrt : α → α) (cfg : Config α) (k : ℤ) (ic : ℕ) : List α :=
  (sub_clear_vec_i cfg k).map (fun p =>
    sqrt (((rowOf (num_sub_rows cfg k) p : α) - (target_row cfg k ic : α)) ^ 2 +
          ((colOf (num_sub_rows cfg k) p : α) - (target_col cfg k ic : α)) ^ 2))

/-- Stable insertion of an index into an index list sorted by a boolean order. -/
def insertByKey (le : ℕ → ℕ → Bool) (x : ℕ) : List ℕ → List ℕ
  | [] => [x]
  | y :: t => if le x y then x :: y :: t else y :: insertByKey le x t

/-- Source: `sort_index(clear_dists)`: indices of the distances in ascending
order.  Ties are broken by index (the C++ sort leaves tie order unspecified). -/
def sortIndex (ds : List α) : List ℕ :=
  (List.range ds.length).foldr
    (insertByKey (fun i j =>
      decide (ds.getD i 0 < ds.getD j 0 ∨ (ds.getD i 0 = ds.getD j 0 ∧ i ≤ j)))) []

/-- Source: `order_clear = order_clear(span(1, order_clear.n_elem - 1))`,
the sorted candidate indices with the nearest one removed.  The span itself
is out of bounds when fewer than two candidates exist; that failure is
raised in `regionStep`. -/
def order_clear (ds : List α) : List ℕ := (sortIndex ds).drop 1

/-- Source: `indicate_similar = sum((sub_clear_clear.row(..) - sub_clear.row(ic)) <= similar_th_band)`,
the number of bands in which the candidate passes the one-sided similarity test. -/
def indicate_similar (cand target th : ℕ → α) (B : ℕ) : ℕ :=
  ((List.range B).filter (fun b => decide (cand b - target b ≤ th b))).length

/-- The acceptance test `indicate_similar == dims(2)` for candidate `j`
against target pixel number `ic`.  Note: the source compares against
`sub_clear.row(ic)` where `ic` is the loop counter, i.e. against the clear
spectrum of window pixel number `ic`, not of the region pixel. -/
def isSimilar (sqrt : α → α) (cfg : Config α) (k : ℤ) (ic j : ℕ) : Bool :=
  decide (indicate_similar (fun b => sub_clear_clear cfg k j b)
      (fun b => sub_clear cfg k ic b)
      (fun b => similar_th_band sqrt cfg k b) cfg.B = cfg.B)

/-- The while loop over candidates: accept each candidate passing the test,
in list order, until `min_pixel` have been accepted or the list is exhausted
(`num_similar <= min_pixel - 1 && iclear <= order_clear.n_elem - 1`). -/
def acceptSimilar (isSim : ℕ → Bool) : List ℕ → ℕ → List ℕ
  | [], _ => []
  | _ :: _, 0 => []
  | j :: rest, need + 1 =>
    if isSim j then j :: acceptSimilar isSim rest need
    else acceptSimilar isSim rest (need + 1)

/-- The accepted donors of one target pixel: the walk starts at `iclear = 1`
over `order_clear`, which itself already dropped the first sorted index. -/
def similar_accepted (isSim : ℕ → Bool) (ds : List α) (mp : ℕ) : List ℕ :=
  acceptSimilar isSim ((order_clear ds).drop 1) mp

/-- Source: `rmse_similar = sqrt(sum(pow(candidate - target, 2)) / dims(2))`,
the spectral dissimilarity of candidate `j` from the target spectrum
(read, as in the source, from row `ic` of `sub_clear`). -/
def rmse_of (sqrt : α → α) (cfg : Config α) (k : ℤ) (ic j : ℕ) : α :=
  sqrt (((List.range cfg.B).map
    (fun b => (sub_clear_clear cfg k j b - sub_clear cfg k ic b) ^ 2)).sum / (cfg.B : α))

/-- Source min-max normalization to `[1, 2]`:
`(x - min(x)) / (max(x) - min(x) + 0.000001) + 1.0`. -/
def norm_scores (l : List α) : List α :=
  l.map (fun x => (x - minL 0 l) / (maxL 0 l - minL 0 l + 1 / 1000000) + 1)

/-- Source: `C_D = rmse_similar_norm % dis_similar_norm + 0.0000001`. -/
def C_D (r d : List α) : List α :=
  (norm_scores r).zipWith (fun a b => a * b + 1 / 10000000) (norm_scores d)

/-- Source: `weight = (1.0 / C_D) / sum(1.0 / C_D)`. -/
def weights (r d : List α) : List α :=
  (C_D r d).map (fun c => (1 / c) / ((C_D r d).map (fun x => 1 / x)).sum)

/-- Source: `r2 = sqrt(pow(x_center - ri, 2) + pow(y_center - ci, 2))` with
`x_center = num_sub_cols / 2.0` and `y_center = num_sub_rows / 2.0`.  The row
coordinate `ri` is compared against the column center and vice versa. -/
def r2_val (sqrt : α → α) (nsr nsc ri ci : ℕ) : α :=
  sqrt (((nsc : α) / 2 - (ri : α)) ^ 2 + ((nsr : α) / 2 - (ci : α)) ^ 2)

/-- The value stored into row `ic`, band `b` of `sub_cloudy` for target pixel
number `ic`: the weighted blend when more than one donor was accepted, the
`mean_diff` fallback otherwise.  As in the source, the row index written and
the clear spectrum used are those of window pixel `ic` (the loop counter),
while the coordinates `ri, ci` are those of the region pixel number `ic`. -/
def fillValue (sqrt : α → α) (img : ℕ → ℕ → ℕ → α) (cfg : Config α) (k : ℤ) (ic b : ℕ) : α :=
  let ds := clear_dists sqrt cfg k ic
  let acc := similar_accepted (isSimilar sqrt cfg k ic) ds cfg.min_pixel
  if 1 < acc.length then
    let rl := acc.map (fun j => rmse_of sqrt cfg k ic j)
    let dl := acc.map (fun j => ds.getD j 0)
    let w := weights rl dl
    let p1 := (List.zipWith (fun wi j => wi * sub_cloudy_clear img cfg k j b) w acc).sum
    let p2 := sub_clear cfg k ic b +
      (List.zipWith
        (fun wi j => wi * (sub_cloudy_clear img cfg k j b - sub_clear_clear cfg k j b)) w acc).sum
    let r2 := r2_val sqrt (num_sub_rows cfg k) (num_sub_cols cfg k)
      (target_row cfg k ic) (target_col cfg k ic)
    let WT1 := r2 / (r2 + meanL dl)
    let WT2 := meanL dl / (r2 + meanL dl)
    if cfg.DN_min < p2 ∧ p2 < cfg.DN_max then WT1 * p1 + WT2 * p2 else p1
  else sub_clear cfg k ic b + mean_diff img cfg k b

/-- Processing of one region: extract the window, fill rows `0 .. count - 1`
of `sub_cloudy` (the source writes row `ic`, the loop counter), and write the
whole window back.  The span `order_clear(span(1, n_elem - 1))` is out of
bounds as soon as the first region pixel is processed with fewer than two
candidates in the window; this is modeled by returning `none`.  A region
with no cells is skipped (unreachable from `cloud_fill`, whose codes are
values present in the mask). -/
def regionStep (sqrt : α → α) (cfg : Config α) (k : ℤ) (img : ℕ → ℕ → ℕ → α) :
    Option (ℕ → ℕ → ℕ → α) :=
  if cloud_vec_i cfg k = [] then some img
  else if sub_cloud_vec_i cfg k ≠ [] ∧ (sub_clear_vec_i cfg k).length < 2 then none
  else some (fun r c b =>
    if up_row cfg k ≤ r ∧ r ≤ down_row cfg k ∧ left_col cfg k ≤ c ∧ c ≤ right_col cfg k then
      let p := (r - up_row cfg k) + (c - left_col cfg k) * num_sub_rows cfg k
      if p < (sub_cloud_vec_i cfg k).length then fillValue sqrt img cfg k p b
      else sub_cloudy0 img cfg k p b
    else img r c b)

/-- Insertion into a strictly ascending list of codes, keeping it ascending
and duplicate-free. -/
def insertUnique (x : ℤ) : List ℤ → List ℤ
  | [] => [x]
  | y :: t => if x < y then x :: y :: t else if x = y then y :: t else y :: insertUnique x t

/-- All mask values in column-major order. -/
def mask_values (cfg : Config α) : List ℤ :=
  (List.range (cfg.R * cfg.C)).map (fun i => cfg.mask (rowOf cfg.R i) (colOf cfg.R i))

/-- Source: `cloud_codes = unique(cloud_mask); cloud_codes = cloud_codes(find(cloud_codes >= 1))`:
the distinct mask values at least 1, in ascending order. -/
def cloud_codes (cfg : Config α) : List ℤ :=
  ((mask_values cfg).foldr insertUnique []).filter (fun v => decide (1 ≤ v))

/-- The entry point `cloud_fill`: process the regions in code order, each
reading the cloudy image as left by the previous ones, and return the mutated
cloudy image.  `none` models the Armadillo bounds error. -/
def cloud_fill (sqrt : α → α) (cfg : Config α) : Option (ℕ → ℕ → ℕ → α) :=
  (cloud_codes cfg).foldl (fun acc k => acc.bind (regionStep sqrt cfg k)) (some cfg.cloudy)

/-- Modelled from the spec: the similar-pixel walk as section 4.3 describes
it, discarding exactly one candidate (the nearest, index 0 after the sort)
and visiting the second-nearest candidate and every later one. -/
def spec_walk (isSim : ℕ → Bool) (ds : List α) (mp : ℕ) : List ℕ :=
  acceptSimilar isSim ((sortIndex ds).drop 1) mp

/-- Modelled from the spec: the Euclidean distance from the target pixel
`(ri, ci)` to the window center `(rows / 2, cols / 2)`. -/
def center_dist (sqrt : α → α) (nsr nsc ri ci : ℕ) : α :=
  sqrt (((ri : α) - (nsr : α) / 2) ^ 2 + ((ci : α) - (nsc : α) / 2) ^ 2)

/-- Modelled from the spec: the similarity test of section 4.3, comparing
candidate `j` against the clear spectrum of the target obscured pixel itself
(local flat index `target_pix`), band by band, one-sided, with the same
threshold.  The code instead compares against `sub_clear.row(ic)`, the
spectrum of window pixel number `ic`. -/
def spec_similar (sqrt : α → α) (cfg : Config α) (k : ℤ) (ic j : ℕ) : Bool :=
  decide (indicate_similar (fun b => sub_clear_clear cfg k j b)
      (fun b => sub_clear cfg k (target_pix cfg k ic) b)
      (fun b => similar_th_band sqrt cfg k b) cfg.B = cfg.B)

/-! ### General lemmas about the auxiliary functions -/

theorem foldr_min_le {β : Type} [LinearOrder β] {l : List β} {x : β} (i : β) (h : x ∈ l) :
    l.foldr min i ≤ x := by
  induction l with
  | nil => cases h
  | cons a t ih =>
    rcases List.mem_cons.mp h with rfl | h2
    · exact min_le_left _ _
    · exact le_trans (min_le_right _ _) (ih h2)

theorem le_foldr_max {β : Type} [LinearOrder β] {l : List β} {x : β} (i : β) (h : x ∈ l) :
    x ≤ l.foldr max i := by
  induction l with
  | nil => cases h
  | cons a t ih =>
    rcases List.mem_cons.mp h with rfl | h2
    · exact le_max_left _ _
    · exact le_trans (ih h2) (le_max_right _ _)

theorem minL_le {β : Type} [LinearOrder β] {l : List β} {x : β} (d : β) (h : x ∈ l) :
    minL d l ≤ x := foldr_min_le _ h

theorem le_maxL {β : Type} [LinearOrder β] {l : List β} {x : β} (d : β) (h : x ∈ l) :
    x ≤ maxL d l := le_foldr_max _ h

theorem minL_le_maxL {β : Type} [LinearOrder β] {l : List β} (d : β) (h : l ≠ []) :
    minL d l ≤ maxL d l := by
  obtain ⟨x, hx⟩ := List.exists_mem_of_ne_nil l h
  exact le_trans (minL_le d hx) (le_maxL d hx)

theorem rowOf_eq_mod (R i : ℕ) : rowOf R i = i % R := by
  unfold rowOf
  exact Nat.sub_eq_of_eq_add (by rw [Nat.mul_comm]; exact (Nat.mod_add_div i R).symm)

theorem rowOf_lt {R C i : ℕ} (h : i < R * C) : rowOf R i < R := by
  have hR : 0 < R := by
    rcases Nat.eq_zero_or_pos R with h0 | h0
    · subst h0; simp at h
    · exact h0
  rw [rowOf_eq_mod]
  exact Nat.mod_lt _ hR

theorem colOf_lt {R C i : ℕ} (h : i < R * C) : colOf R i < C := by
  have hR : 0 < R := by
    rcases Nat.eq_zero_or_pos R with h0 | h0
    · subst h0; simp at h
    · exact h0
  exact (Nat.div_lt_iff_lt_mul hR).mpr (by rw [Nat.mul_comm] at h; exact h)

theorem rowOf_add_mul {n a : ℕ} (b : ℕ) (ha : a < n) : rowOf n (a + b * n) = a := by
  rw [rowOf_eq_mod, Nat.add_mul_mod_self_right, Nat.mod_eq_of_lt ha]

theorem colOf_add_mul {n a : ℕ} (b : ℕ) (ha : a < n) : colOf n (a + b * n) = b := by
  unfold colOf
  rw [Nat.add_mul_div_right _ _ (by omega : 0 < n), Nat.div_eq_of_lt ha, Nat.zero_add]

theorem flat_lt {n m a b : ℕ} (ha : a < n) (hb : b < m) : a + b * n < n * m := by
  calc a + b * n < n + b * n := by omega
    _ = (b + 1) * n := by ring
    _ ≤ m * n := Nat.mul_le_mul_right n hb
    _ = n * m := Nat.mul_comm m n

theorem mem_of_mem_insertUnique {x y : ℤ} {l : List ℤ} (h : x ∈ insertUnique y l) :
    x = y ∨ x ∈ l := by
  induction l with
  | nil => simpa [insertUnique] using h
  | cons a t ih =>
    rw [insertUnique] at h
    split at h
    · rcases List.mem_cons.mp h with rfl | h2
      · exact Or.inl rfl
      · exact Or.inr h2
    · split at h
      · exact Or.inr h
      · rcases List.mem_cons.mp h with rfl | h2
        · exact Or.inr (List.mem_cons_self _ _)
        · rcases ih h2 with h3 | h3
          · exact Or.inl h3
          · exact Or.inr (List.mem_cons_of_mem _ h3)

theorem mem_insertUnique_self (x : ℤ) (l : List ℤ) : x ∈ insertUnique x l := by
  induction l with
  | nil => simp [insertUnique]
  | cons a t ih =>
    rw [insertUnique]
    split
    · exact List.mem_cons_self _ _
    · split
      · rename_i h1 h2
        subst h2
        exact List.mem_cons_self _ _
      · exact List.mem_cons_of_mem _ ih

theorem mem_insertUnique_of_mem {x : ℤ} (y : ℤ) {l : List ℤ} (h : x ∈ l) :
    x ∈ insertUnique y l := by
  induction l with
  | nil => cases h
  | cons a t ih =>
    rw [insertUnique]
    rcases List.mem_cons.mp h with rfl | h2
    · split
      · exact List.mem_cons_of_mem _ (List.mem_cons_self _ _)
      · split
        · exact List.mem_cons_self _ _
        · exact List.mem_cons_self _ _
    · split
      · exact List.mem_cons_of_mem _ h
      · split
        · exact h
        · exact List.mem_cons_of_mem _ (ih h2)

theorem mem_foldr_insertUnique {x : ℤ} {l : List ℤ} :
    x ∈ l.foldr insertUnique [] ↔ x ∈ l := by
  induction l with
  | nil => simp
  | cons a t ih =>
    constructor
    · intro h
      rcases mem_of_mem_insertUnique h with rfl | h2
      · exact List.mem_cons_self _ _
      · exact List.mem_cons_of_mem _ (ih.mp h2)
    · intro h
      rcases List.mem_cons.mp h with rfl | h2
      · exact mem_insertUnique_self _ _
      · exact mem_insertUnique_of_mem _ (ih.mpr h2)

theorem foldl_bind_none {γ β : Type} (f : γ → β → Option β) (l : List γ) :
    l.foldl (fun acc k2 => acc.bind (f k2)) none = none := by
  induction l with
  | nil => rfl
  | cons a t ih => simpa using ih

theorem foldl_bind_eq_none {γ β : Type} (f : γ → β → Option β) (l : List γ) (k : γ)
    (hk : k ∈ l) (hnone : ∀ x, f k x = none) (init : Option β) :
    l.foldl (fun acc k2 => acc.bind (f k2)) init = none := by
  induction l generalizing init with
  | nil => cases hk
  | cons a t ih =>
    rcases List.mem_cons.mp hk with rfl | hk2
    · have hstep : init.bind (f k) = none := by cases init <;> simp [hnone]
      rw [List.foldl_cons, hstep]
      exact foldl_bind_none f t
    · rw [List.foldl_cons]
      exact ih hk2 _

theorem drop_one_drop_one {β : Type} (l : List β) : (l.drop 1).drop 1 = l.drop 2 := by
  rw [List.drop_drop]

theorem norm_scores_one_le {l : List α} {x : α} (h : x ∈ norm_scores l) : 1 ≤ x := by
  obtain ⟨y, hy, rfl⟩ := List.mem_map.mp h
  have hne : l ≠ [] := List.ne_nil_of_mem hy
  have hd : (0 : α) < maxL 0 l - minL 0 l + 1 / 1000000 := by
    have h1 : minL 0 l ≤ maxL 0 l := minL_le_maxL 0 hne
    have h2 : (0 : α) < 1 / 1000000 := by norm_num
    linarith
  have hn : (0 : α) ≤ y - minL 0 l := sub_nonneg.mpr (minL_le 0 hy)
  have := div_nonneg hn (le_of_lt hd)
  linarith

theorem C_D_pos_aux (l1 l2 : List α) (h1 : ∀ a ∈ l1, 1 ≤ a) (h2 : ∀ b ∈ l2, 1 ≤ b) :
    ∀ c ∈ List.zipWith (fun a b => a * b + 1 / 10000000) l1 l2, 0 < c := by
  induction l1 generalizing l2 with
  | nil => intro c hc; simp at hc
  | cons a t ih =>
    cases l2 with
    | nil => intro c hc; simp at hc
    | cons b t2 =>
      intro c hc
      rcases List.mem_cons.mp hc with rfl | hc2
      · have ha : (1 : α) ≤ a := h1 a (List.mem_cons_self _ _)
        have hb : (1 : α) ≤ b := h2 b (List.mem_cons_self _ _)
        have hab : (1 : α) * 1 ≤ a * b :=
          mul_le_mul ha hb (by norm_num) (le_trans (by norm_num) ha)
        have heps : (0 : α) < 1 / 10000000 := by norm_num
        linarith
      · exact ih t2 (fun x hx => h1 x (List.mem_cons_of_mem _ hx))
          (fun x hx => h2 x (List.mem_cons_of_mem _ hx)) c hc2

theorem C_D_pos {r d : List α} : ∀ c ∈ C_D r d, 0 < c := by
  intro c hc
  exact C_D_pos_aux _ _ (fun a ha => norm_scores_one_le ha)
    (fun b hb => norm_scores_one_le hb) c hc

theorem acceptSimilar_eq_take_filter (isSim : ℕ → Bool) (l : List ℕ) (mp : ℕ) :
    acceptSimilar isSim l mp = (l.filter isSim).take mp := by
  induction l generalizing mp with
  | nil => cases mp <;> rfl
  | cons j rest ih =>
    cases mp with
    | zero => rfl
    | succ need =>
      rw [acceptSimilar]
      by_cases hj : isSim j = true
      · rw [if_pos hj, List.filter_cons_of_pos hj, List.take_succ_cons, ih]
      · rw [if_neg hj, List.filter_cons_of_neg hj, ih]

theorem insertByKey_perm (le : ℕ → ℕ → Bool) (x : ℕ) (l : List ℕ) :
    (insertByKey le x l).Perm (x :: l) := by
  induction l with
  | nil => rfl
  | cons y t ih =>
    rw [insertByKey]
    by_cases h : le x y = true
    · rw [if_pos h]
    · rw [if_neg h]
      exact List.Perm.trans (List.Perm.cons y ih) (List.Perm.swap x y t)

/-- `sortIndex` permutes the candidate indices `0 .. n-1`: the walk over its
tail visits every candidate except the discarded ones. -/
theorem sortIndex_perm (ds : List α) : (sortIndex ds).Perm (List.range ds.length) := by
  rw [sortIndex]
  generalize List.range ds.length = l
  induction l with
  | nil => rfl
  | cons a t ih =>
    exact List.Perm.trans (insertByKey_perm _ a _) (List.Perm.cons a ih)

theorem pairwise_insertByKey (le : ℕ → ℕ → Bool)
    (htot : ∀ i j, le i j = true ∨ le j i = true)
    (htrans : ∀ i j k2, le i j = true → le j k2 = true → le i k2 = true)
    (x : ℕ) (l : List ℕ) (hl : l.Pairwise (fun i j => le i j = true)) :
    (insertByKey le x l).Pairwise (fun i j => le i j = true) := by
  induction l with
  | nil => simp [insertByKey]
  | cons y t ih =>
    rw [insertByKey]
    rcases List.pairwise_cons.mp hl with ⟨hy, ht⟩
    by_cases h : le x y = true
    · rw [if_pos h]
      refine List.pairwise_cons.mpr ⟨?_, hl⟩
      intro z hz
      rcases List.mem_cons.mp hz with rfl | hz2
      · exact h
      · exact htrans x y z h (hy z hz2)
    · rw [if_neg h]
      refine List.pairwise_cons.mpr ⟨?_, ih ht⟩
      intro z hz
      have hzmem := (List.Perm.mem_iff (insertByKey_perm le x t)).mp hz
      rcases List.mem_cons.mp hzmem with rfl | hz2
      · rcases htot z y with h2 | h2
        · exact absurd h2 h
        · exact h2
      · exact hy z hz2

/-- `sortIndex` sorts: along its output the distances are ascending, so the
walk over the sorted candidates proceeds in distance order. -/
theorem sortIndex_sorted_dists (ds : List α) :
    (sortIndex ds).Pairwise (fun i j => ds.getD i 0 ≤ ds.getD j 0) := by
  have key : (sortIndex ds).Pairwise (fun i j =>
      decide (ds.getD i 0 < ds.getD j 0 ∨ (ds.getD i 0 = ds.getD j 0 ∧ i ≤ j)) = true) := by
    rw [sortIndex]
    generalize List.range ds.length = l
    induction l with
    | nil => simp
    | cons a t ih =>
      refine pairwise_insertByKey _ ?_ ?_ a _ ih
      · intro i j
        simp only [decide_eq_true_eq]
        rcases lt_trichotomy (ds.getD i 0) (ds.getD j 0) with h | h | h
        · exact Or.inl (Or.inl h)
        · rcases Nat.le_total i j with h2 | h2
          · exact Or.inl (Or.inr ⟨h, h2⟩)
          · exact Or.inr (Or.inr ⟨h.symm, h2⟩)
        · exact Or.inr (Or.inl h)
      · intro i j k2
        simp only [decide_eq_true_eq]
        rintro (h1 | ⟨h1, h1i⟩) (h2 | ⟨h2, h2i⟩)
        · exact Or.inl (lt_trans h1 h2)
        · exact Or.inl (h2 ▸ h1)
        · exact Or.inl (h1 ▸ h2)
        · exact Or.inr ⟨h1.trans h2, le_trans h1i h2i⟩
  refine key.imp ?_
  intro i j h
  simp only [decide_eq_true_eq] at h
  rcases h with h | ⟨h, _⟩
  · exact le_of_lt h
  · exact le_of_eq h

/-! ### Square root evaluation lemmas for the concrete configurations -/

theorem sqrt_four : Real.sqrt 4 = 2 := by
  rw [show (4 : ℝ) = 2 ^ 2 by norm_num, Real.sqrt_sq (by norm_num)]

theorem sqrt_nine : Real.sqrt 9 = 3 := by
  rw [show (9 : ℝ) = 3 ^ 2 by norm_num, Real.sqrt_sq (by norm_num)]

theorem sqrt_sixteen : Real.sqrt 16 = 4 := by
  rw [show (16 : ℝ) = 4 ^ 2 by norm_num, Real.sqrt_sq (by norm_num)]

theorem sqrt_twentyfive : Real.sqrt 25 = 5 := by
  rw [show (25 : ℝ) = 5 ^ 2 by norm_num, Real.sqrt_sq (by norm_num)]

theorem sqrt_four_hundred : Real.sqrt 400 = 20 := by
  rw [show (400 : ℝ) = 20 ^ 2 by norm_num, Real.sqrt_sq (by norm_num)]

/-! ### Concrete configurations

`cfgA` is a 6-row, 1-column, 1-band configuration: rows 0 to 3 are clear
(mask 0), row 4 is cloud region 1, row 5 is invalid (mask -1).  The clear
image is the constant 100; the cloudy image is 50 at row 0, 777 at the cloud
cell, 0 at the invalid cell and 200 elsewhere.  With a window covering the
whole column, distances from the target to the candidates are 4, 3, 2, 1 and
every square root taken during the run has a perfect-square argument. -/

def cfgA : Config ℝ where
  R := 6
  C := 1
  B := 1
  cloudy := fun r _ _ => if r = 0 then 50 else if r = 4 then 777 else if r = 5 then 0 else 200
  clear := fun _ _ _ => 100
  mask := fun r _ => if r = 4 then 1 else if r = 5 then -1 else 0
  num_class := 1
  min_pixel := 1
  cloud_nbh := 5
  DN_min := 0
  DN_max := 1000

/-- 1-by-1 configuration whose only cell is a cloud region: its window has
no clear candidate at all. -/
def cfgB : Config ℝ where
  R := 1
  C := 1
  B := 1
  cloudy := fun _ _ _ => 0
  clear := fun _ _ _ => 0
  mask := fun _ _ => 1
  num_class := 1
  min_pixel := 1
  cloud_nbh := 0
  DN_min := 0
  DN_max := 255

/-- 2-by-1 configuration with one cloud cell and exactly one clear
candidate in its window. -/
def cfgC : Config ℝ where
  R := 2
  C := 1
  B := 1
  cloudy := fun _ _ _ => 0
  clear := fun _ _ _ => 0
  mask := fun r _ => if r = 0 then 1 else 0
  num_class := 1
  min_pixel := 1
  cloud_nbh := 1
  DN_min := 0
  DN_max := 255

/-- 1-by-1 configuration with an all-clear mask. -/
def cfgD : Config ℝ where
  R := 1
  C := 1
  B := 1
  cloudy := fun _ _ _ => 7
  clear := fun _ _ _ => 3
  mask := fun _ _ => 0
  num_class := 1
  min_pixel := 1
  cloud_nbh := 1
  DN_min := 0
  DN_max := 255

/-- 5-by-1, 1-band configuration with a non-constant clear image: rows 0 to
3 are clear candidates with clear values 90, 130, 110, 90; row 4 is cloud
region 1 with clear value 80.  The window covers the whole column, the
sample standard deviation of the window clear values is 20, so the
similarity threshold is 40; the clear spectrum of window pixel 0 (90)
differs from that of the target pixel (80), separating the two readings of
the similarity test. -/
def cfgE : Config ℝ where
  R := 5
  C := 1
  B := 1
  cloudy := fun _ _ _ => 0
  clear := fun r _ _ =>
    if r = 0 then 90 else if r = 1 then 130 else if r = 2 then 110 else if r = 3 then 90 else 80
  mask := fun r _ => if r = 4 then 1 else 0
  num_class := 1
  min_pixel := 1
  cloud_nbh := 4
  DN_min := 0
  DN_max := 255

/-! ### Evaluation of the run on `cfgA` -/

theorem cfgA_sub_clear (p b : ℕ) : sub_clear cfgA 1 p b = 100 := rfl

theorem cfgA_th (b : ℕ) : similar_th_band Real.sqrt cfgA 1 b = 0 := by
  norm_num [similar_th_band, stddevL, sampleVar, meanL, cfgA_sub_clear,
    show num_sub_rows cfgA 1 = 6 by decide, show num_sub_cols cfgA 1 = 1 by decide,
    List.range_succ, Real.sqrt_zero]

theorem cfgA_ds : clear_dists Real.sqrt cfgA 1 0 = [4, 3, 2, 1] := by
  norm_num [clear_dists, show sub_clear_vec_i cfgA 1 = [0, 1, 2, 3] by decide,
    show num_sub_rows cfgA 1 = 6 by decide,
    show target_row cfgA 1 0 = 4 by decide, show target_col cfgA 1 0 = 0 by decide,
    rowOf, colOf, sqrt_sixteen, sqrt_nine, sqrt_four, Real.sqrt_one]

theorem sortIndex_4321 : sortIndex ([4, 3, 2, 1] : List ℝ) = [3, 2, 1, 0] := by
  norm_num [sortIndex, insertByKey, List.range_succ]

theorem cfgA_acc :
    similar_accepted (isSimilar Real.sqrt cfgA 1 0) (clear_dists Real.sqrt cfgA 1 0)
      cfgA.min_pixel = [1] := by
  norm_num [similar_accepted, order_clear, cfgA_ds, acceptSimilar, sortIndex_4321,
    isSimilar, indicate_similar, cfgA_th, cfgA_sub_clear, sub_clear_clear,
    show cfgA.min_pixel = 1 from rfl, show cfgA.B = 1 from rfl, List.range_succ]

theorem cfgA_mean_diff (b : ℕ) : mean_diff cfgA.cloudy cfgA 1 b = 125 / 2 := by
  norm_num [mean_diff, meanL, sub_cloudy_clear, sub_cloudy0, sub_clear_clear, cfgA_sub_clear,
    show sub_clear_vec_i cfgA 1 = [0, 1, 2, 3] by decide, List.range_succ,
    show globalRow cfgA 1 0 = 0 by decide, show globalRow cfgA 1 1 = 1 by decide,
    show globalRow cfgA 1 2 = 2 by decide, show globalRow cfgA 1 3 = 3 by decide,
    show globalCol cfgA 1 0 = 0 by decide, show globalCol cfgA 1 1 = 0 by decide,
    show globalCol cfgA 1 2 = 0 by decide, show globalCol cfgA 1 3 = 0 by decide,
    show ∀ b, cfgA.cloudy 0 0 b = 50 from fun _ => rfl,
    show ∀ b, cfgA.cloudy 1 0 b = 200 from fun _ => rfl,
    show ∀ b, cfgA.cloudy 2 0 b = 200 from fun _ => rfl,
    show ∀ b, cfgA.cloudy 3 0 b = 200 from fun _ => rfl]

theorem cfgA_fill (b : ℕ) : fillValue Real.sqrt cfgA.cloudy cfgA 1 0 b = 325 / 2 := by
  rw [fillValue]
  norm_num [cfgA_acc, cfgA_sub_clear, cfgA_mean_diff]

theorem cfgA_out0 : (cloud_fill Real.sqrt cfgA).map (fun f => f 0 0 0) = some (325 / 2) := by
  rw [cloud_fill, show cloud_codes cfgA = [1] by decide]
  rw [List.foldl, List.foldl, Option.bind, regionStep]
  rw [if_neg (by decide), if_neg (by decide)]
  norm_num [show up_row cfgA 1 = 0 by decide, show down_row cfgA 1 = 5 by decide,
    show left_col cfgA 1 = 0 by decide, show right_col cfgA 1 = 0 by decide,
    show num_sub_rows cfgA 1 = 6 by decide,
    show (sub_cloud_vec_i cfgA 1).length = 1 by decide, cfgA_fill]

theorem cfgA_out4 : (cloud_fill Real.sqrt cfgA).map (fun f => f 4 0 0) = some 777 := by
  rw [cloud_fill, show cloud_codes cfgA = [1] by decide]
  rw [List.foldl, List.foldl, Option.bind, regionStep]
  rw [if_neg (by decide), if_neg (by decide)]
  norm_num [show up_row cfgA 1 = 0 by decide, show down_row cfgA 1 = 5 by decide,
    show left_col cfgA 1 = 0 by decide, show right_col cfgA 1 = 0 by decide,
    show num_sub_rows cfgA 1 = 6 by decide,
    show (sub_cloud_vec_i cfgA 1).length = 1 by decide, sub_cloudy0,
    show globalRow cfgA 1 4 = 4 by decide, show globalCol cfgA 1 4 = 0 by decide,
    show ∀ b, cfgA.cloudy 4 0 b = 777 from fun _ => rfl]

/-! ### Evaluation of the similarity test on `cfgE` -/

theorem cfgE_sub_clear0 (b : ℕ) : sub_clear cfgE 1 0 b = 90 := by
  rw [sub_clear, show globalRow cfgE 1 0 = 0 by decide, show globalCol cfgE 1 0 = 0 by decide]
  rfl

theorem cfgE_sub_clear1 (b : ℕ) : sub_clear cfgE 1 1 b = 130 := by
  rw [sub_clear, show globalRow cfgE 1 1 = 1 by decide, show globalCol cfgE 1 1 = 0 by decide]
  rfl

theorem cfgE_sub_clear2 (b : ℕ) : sub_clear cfgE 1 2 b = 110 := by
  rw [sub_clear, show globalRow cfgE 1 2 = 2 by decide, show globalCol cfgE 1 2 = 0 by decide]
  rfl

theorem cfgE_sub_clear3 (b : ℕ) : sub_clear cfgE 1 3 b = 90 := by
  rw [sub_clear, show globalRow cfgE 1 3 = 3 by decide, show globalCol cfgE 1 3 = 0 by decide]
  rfl

theorem cfgE_sub_clear4 (b : ℕ) : sub_clear cfgE 1 4 b = 80 := by
  rw [sub_clear, show globalRow cfgE 1 4 = 4 by decide, show globalCol cfgE 1 4 = 0 by decide]
  rfl

theorem cfgE_th (b : ℕ) : similar_th_band Real.sqrt cfgE 1 b = 40 := by
  norm_num [similar_th_band, stddevL, sampleVar, meanL,
    show num_sub_rows cfgE 1 = 5 by decide, show num_sub_cols cfgE 1 = 1 by decide,
    List.range_succ, cfgE_sub_clear0, cfgE_sub_clear1, cfgE_sub_clear2, cfgE_sub_clear3,
    cfgE_sub_clear4, sqrt_four_hundred, show cfgE.num_class = 1 from rfl]

theorem cfgE_cand1 (b : ℕ) : sub_clear_clear cfgE 1 1 b = 130 := by
  simp only [sub_clear_clear]
  rw [show (sub_clear_vec_i cfgE 1).getD 1 0 = 1 by decide]
  exact cfgE_sub_clear1 b

theorem cfgE_ds : clear_dists Real.sqrt cfgE 1 0 = [4, 3, 2, 1] := by
  norm_num [clear_dists, show sub_clear_vec_i cfgE 1 = [0, 1, 2, 3] by decide,
    show num_sub_rows cfgE 1 = 5 by decide,
    show target_row cfgE 1 0 = 4 by decide, show target_col cfgE 1 0 = 0 by decide,
    rowOf, colOf, sqrt_sixteen, sqrt_nine, sqrt_four, Real.sqrt_one]

/-! ### The claims -/

/-- Claim C1: the spec asserts that every cell with mask value 0 or -1 keeps
its input value.  The code violates this: the fill result of region pixel
number `ic` is written into row `ic` of the window matrix (the loop counter)
instead of row `sub_cloud_vec_i(ic)`, so in `cfgA` the clear cell (0, 0)
(mask 0, input 50) comes back as 162.5. -/
theorem c1_clear_cell_overwritten :
    cfgA.mask 0 0 = 0 ∧
      (cloud_fill Real.sqrt cfgA).map (fun f => f 0 0 0) = some (325 / 2) ∧
      cfgA.cloudy 0 0 0 = 50 ∧ (325 / 2 : ℝ) ≠ 50 :=
  ⟨rfl, cfgA_out0, rfl, by norm_num⟩

/-- Claim C2: the spec asserts that every positive-coded cell receives the
reconstructed value at its own global row and column.  In `cfgA` the only
region pixel reconstructs to 162.5 (the fallback value), but the returned
image still holds the input value 777 at the cloud cell (4, 0): the value
was written to window row `ic = 0` instead. -/
theorem c2_cloud_cell_not_replaced :
    cfgA.mask 4 0 = 1 ∧
      fillValue Real.sqrt cfgA.cloudy cfgA 1 0 0 = 325 / 2 ∧
      (cloud_fill Real.sqrt cfgA).map (fun f => f 4 0 0) = some 777 ∧
      cfgA.cloudy 4 0 0 = 777 ∧ (777 : ℝ) ≠ 325 / 2 :=
  ⟨rfl, cfgA_fill 0, cfgA_out4, rfl, by norm_num⟩

/-- Claim C3 counterexample: with distances `[4, 3, 2, 1]`, an
always-accepting similarity test and `min_pixel = 1`, the walk of the code
accepts candidate 1 (the third nearest), while the walk the spec describes
(visit from the second-nearest onward) accepts candidate 2: after the
explicit removal of sorted index 0, the loop counter starts at 1 and skips
the second-nearest candidate as well. -/
theorem c3_second_nearest_never_visited :
    similar_accepted (fun _ => true) ([4, 3, 2, 1] : List ℝ) 1 = [1] ∧
      spec_walk (fun _ => true) ([4, 3, 2, 1] : List ℝ) 1 = [2] ∧
      ([1] : List ℕ) ≠ [2] := by
  refine ⟨?_, ?_, by decide⟩
  · simp [similar_accepted, order_clear, sortIndex_4321, acceptSimilar]
  · simp [spec_walk, sortIndex_4321, acceptSimilar]

/-- Claim C3 amended: after sorting, exactly two candidates are discarded
(index 0 by the explicit span, index 1 because the walk counter starts at 1),
and the walk visits the third-nearest candidate and every later one,
accepting exactly the first `min_pixel` of those that pass the similarity
test (by `sortIndex_sorted_dists` and `sortIndex_perm`, those are all the
remaining candidates in ascending distance order). -/
theorem c3_walk_starts_at_third_nearest (isSim : ℕ → Bool) (ds : List α) (mp : ℕ) :
    similar_accepted isSim ds mp = (((sortIndex ds).drop 2).filter isSim).take mp := by
  simp only [similar_accepted, order_clear, drop_one_drop_one, acceptSimilar_eq_take_filter]

/-- Claim C4 counterexample: in `cfgB` the single region has a window with
zero clear candidates, and the fill does not complete: the span
`order_clear(span(1, n_elem - 1))` is out of bounds, modeled as `none`. -/
theorem c4_zero_candidate_window_fatal : (cloud_fill Real.sqrt cfgB).isNone = true := by decide

/-- Claim C4 amended: a region that is present in the mask and whose window
holds fewer than two clear candidates makes the whole fill fail (Armadillo
raises on the span `span(1, n_elem - 1)` at the first pixel of the region);
the fallback path is only reachable with at least two candidates. -/
theorem c4_few_candidates_fill_fails (sqrt : α → α) (cfg : Config α) (k : ℤ) (r c : ℕ)
    (hk : 1 ≤ k) (hr : r < cfg.R) (hc : c < cfg.C) (hm : cfg.mask r c = k)
    (hcand : (sub_clear_vec_i cfg k).length < 2) :
    cloud_fill sqrt cfg = none := by
  have hi : r + c * cfg.R ∈ cloud_vec_i cfg k := by
    refine List.mem_filter.mpr ⟨List.mem_range.mpr (flat_lt hr hc), ?_⟩
    simp [rowOf_add_mul c hr, colOf_add_mul c hr, hm]
  have hrmem : r ∈ cloud_row_i cfg k := List.mem_map.mpr ⟨_, hi, rowOf_add_mul c hr⟩
  have hcmem : c ∈ cloud_col_i cfg k := List.mem_map.mpr ⟨_, hi, colOf_add_mul c hr⟩
  have hup : up_row cfg k ≤ r := le_trans (Nat.sub_le _ _) (minL_le 0 hrmem)
  have hdown : r ≤ down_row cfg k :=
    le_min (le_trans (le_maxL 0 hrmem) (Nat.le_add_right _ _)) (by omega)
  have hleft : left_col cfg k ≤ c := le_trans (Nat.sub_le _ _) (minL_le 0 hcmem)
  have hright : c ≤ right_col cfg k :=
    le_min (le_trans (le_maxL 0 hcmem) (Nat.le_add_right _ _)) (by omega)
  have hrn : r - up_row cfg k < num_sub_rows cfg k := by rw [num_sub_rows]; omega
  have hcn : c - left_col cfg k < num_sub_cols cfg k := by rw [num_sub_cols]; omega
  have hp : (r - up_row cfg k) + (c - left_col cfg k) * num_sub_rows cfg k
      ∈ sub_cloud_vec_i cfg k := by
    refine List.mem_filter.mpr ⟨List.mem_range.mpr (flat_lt hrn hcn), ?_⟩
    simp [sub_cloud_mask, globalRow, globalCol, rowOf_add_mul _ hrn, colOf_add_mul _ hrn,
      Nat.add_sub_cancel' hup, Nat.add_sub_cancel' hleft, hm]
  have hstep : ∀ img, regionStep sqrt cfg k img = none := by
    intro img
    rw [regionStep, if_neg (List.ne_nil_of_mem hi),
      if_pos ⟨List.ne_nil_of_mem hp, hcand⟩]
  have hkmem : k ∈ cloud_codes cfg := by
    refine List.mem_filter.mpr ⟨?_, by simpa using hk⟩
    rw [mem_foldr_insertUnique, mask_values]
    refine List.mem_map.mpr ⟨r + c * cfg.R, List.mem_range.mpr (flat_lt hr hc), ?_⟩
    rw [rowOf_add_mul c hr, colOf_add_mul c hr, hm]
  rw [cloud_fill]
  exact foldl_bind_eq_none _ _ k hkmem hstep _

/-- Witness for C4 amended: in `cfgC` the region at (0, 0) has exactly one
clear candidate in its window and the fill fails. -/
theorem c4_few_candidates_fill_fails_witness : cloud_fill Real.sqrt cfgC = none :=
  c4_few_candidates_fill_fails Real.sqrt cfgC 1 0 0 (by decide) (by decide) (by decide)
    rfl (by decide)

/-- Claim C5: the spec asserts that each region writes only its own cells.
In `cfgA`, region 1 changes the cell (0, 0), which does not belong to it
(its mask value is not 1): the write lands at window row `ic`, not at the
region pixel. -/
theorem c5_write_outside_own_region :
    cfgA.mask 0 0 ≠ 1 ∧
      (cloud_fill Real.sqrt cfgA).map (fun f => f 0 0 0) ≠ some (cfgA.cloudy 0 0 0) := by
  refine ⟨by decide, ?_⟩
  rw [cfgA_out0, show cfgA.cloudy 0 0 0 = 50 from rfl]
  simp only [ne_eq, Option.some.injEq]
  norm_num

/-- Claim C6: the spec asserts `r2` is the distance from the target to the
window center `(rows/2, cols/2)`.  For a window of 8 rows and 2 columns and
a target at local (4, 0), the code computes `sqrt((cols/2 - ri)^2 +
(rows/2 - ci)^2) = 5`, while the distance to the center is 1: the row
coordinate is compared against the column center and vice versa. -/
theorem c6_r2_center_swapped :
    r2_val Real.sqrt 8 2 4 0 = 5 ∧ center_dist Real.sqrt 8 2 4 0 = 1 ∧ (5 : ℝ) ≠ 1 := by
  refine ⟨?_, ?_, by norm_num⟩
  · norm_num [r2_val, sqrt_twentyfive]
  · norm_num [center_dist, Real.sqrt_one]

/-- Claim C7: the spec asserts that an obscured pixel with at most one
similar match receives `clear_target + mean_diff`.  In `cfgA` the single
region pixel has exactly one similar match, `clear + mean_diff` at that
pixel is 162.5, yet the returned image holds the untouched input 777 there
(the fallback value went to window row `ic = 0` and used the clear spectrum
of that window pixel). -/
theorem c7_fallback_value_not_at_pixel :
    (similar_accepted (isSimilar Real.sqrt cfgA 1 0) (clear_dists Real.sqrt cfgA 1 0)
        cfgA.min_pixel).length = 1 ∧
      cfgA.clear 4 0 0 + mean_diff cfgA.cloudy cfgA 1 0 = 325 / 2 ∧
      (cloud_fill Real.sqrt cfgA).map (fun f => f 4 0 0) = some 777 ∧
      (777 : ℝ) ≠ 325 / 2 := by
  refine ⟨by rw [cfgA_acc]; rfl, ?_, cfgA_out4, by norm_num⟩
  rw [cfgA_mean_diff, show cfgA.clear 4 0 0 = 100 from rfl]
  norm_num

theorem indicate_similar_eq_iff (cand target th : ℕ → α) (B : ℕ) :
    indicate_similar cand target th B = B ↔ ∀ b < B, cand b - target b ≤ th b := by
  have key : indicate_similar cand target th B = B ↔
      ∀ b ∈ List.range B, (fun b2 => decide (cand b2 - target b2 ≤ th b2)) b = true := by
    rw [indicate_similar, ← List.countP_eq_length_filter]
    constructor
    · intro h
      exact List.countP_eq_length.mp (by rw [h, List.length_range])
    · intro h
      rw [List.countP_eq_length.mpr h, List.length_range]
  rw [key]
  constructor
  · intro h b hb
    simpa using h b (List.mem_range.mpr hb)
  · intro h b hb
    simpa using h b (List.mem_range.mp hb)

/-- Claim C8 counterexample: the claim anchors the comparison to the clear
spectrum of the target obscured pixel; the code reads `sub_clear.row(ic)`,
the clear spectrum of window pixel number `ic`.  In `cfgE` the two differ
(90 at window pixel 0 against 80 at the target), and candidate 1 (clear
value 130, threshold 40) is accepted by the program — indeed it is the donor
its walk selects — although the test of the claim, against the target pixel
itself, rejects it (130 - 80 > 40). -/
theorem c8_target_spectrum_wrong :
    similar_accepted (isSimilar Real.sqrt cfgE 1 0) (clear_dists Real.sqrt cfgE 1 0)
        cfgE.min_pixel = [1] ∧
      isSimilar Real.sqrt cfgE 1 0 1 = true ∧
      spec_similar Real.sqrt cfgE 1 0 1 = false := by
  have hsim : isSimilar Real.sqrt cfgE 1 0 1 = true := by
    norm_num [isSimilar, indicate_similar, cfgE_cand1, cfgE_sub_clear0, cfgE_th,
      show cfgE.B = 1 from rfl, List.range_succ]
  refine ⟨?_, hsim, ?_⟩
  · norm_num [similar_accepted, order_clear, cfgE_ds, acceptSimilar, sortIndex_4321,
      hsim, show cfgE.min_pixel = 1 from rfl]
  · norm_num [spec_similar, indicate_similar, cfgE_cand1, cfgE_th,
      show target_pix cfgE 1 0 = 4 by decide, cfgE_sub_clear4,
      show cfgE.B = 1 from rfl, List.range_succ]

/-- Claim C8 amended: a candidate is accepted as similar if and only if, for
every band, the signed difference between the candidate and the clear
spectrum of window pixel number `ic` (the loop counter, `sub_clear.row(ic)`,
the same indexing slip as in C1, C2, C5 and C7 — not the target obscured
pixel) is at most the threshold; the comparison is one-sided and signed, not
an absolute-value test, so a candidate at most as bright as that reference
always passes a band with nonnegative threshold. -/
theorem c8_one_sided_vs_row_ic (sqrt : α → α) (cfg : Config α) (k : ℤ) (ic j : ℕ) :
    (isSimilar sqrt cfg k ic j = true ↔
      ∀ b < cfg.B, sub_clear_clear cfg k j b - sub_clear cfg k ic b ≤
        similar_th_band sqrt cfg k b) ∧
      ∀ b, sub_clear_clear cfg k j b ≤ sub_clear cfg k ic b →
        0 ≤ similar_th_band sqrt cfg k b →
        sub_clear_clear cfg k j b - sub_clear cfg k ic b ≤ similar_th_band sqrt cfg k b := by
  constructor
  · simp only [isSimilar, decide_eq_true_eq]
    exact indicate_similar_eq_iff _ _ _ _
  · intro b h1 h2
    exact le_trans (sub_nonpos.mpr h1) h2

/-- Witness for C8 amended: in `cfgA` (constant clear image, zero
threshold) candidate 1 passes the test against window pixel 0. -/
theorem c8_one_sided_vs_row_ic_witness : isSimilar Real.sqrt cfgA 1 0 1 = true :=
  (c8_one_sided_vs_row_ic Real.sqrt cfgA 1 0 1).1.mpr (by
    intro b hb
    norm_num [sub_clear_clear, cfgA_sub_clear, cfgA_th])

/-- Claim C9: on the `num_similar > 1` path the donor weights
`(1/C_D) / sum(1/C_D)` with `C_D = rmse_norm * dis_norm + 1e-7` are all
strictly positive and sum to exactly 1. -/
theorem c9_weights_pos_sum_one (r d : List α) (hr : 2 ≤ r.length) (hd : d.length = r.length) :
    (∀ w ∈ weights r d, 0 < w) ∧ (weights r d).sum = 1 := by
  have hcdne : C_D r d ≠ [] := by
    rw [← List.length_pos, C_D, List.length_zipWith]
    simp only [norm_scores, List.length_map]
    omega
  have hSpos : 0 < ((C_D r d).map (fun x => 1 / x)).sum := by
    apply List.sum_pos
    · intro x hx
      obtain ⟨c2, hc2, rfl⟩ := List.mem_map.mp hx
      exact one_div_pos.mpr (C_D_pos c2 hc2)
    · simpa using hcdne
  constructor
  · intro w hw
    rw [weights] at hw
    obtain ⟨c2, hc2, rfl⟩ := List.mem_map.mp hw
    exact div_pos (one_div_pos.mpr (C_D_pos c2 hc2)) hSpos
  · rw [weights]
    rw [show (fun c2 : α => (1 / c2) / (((C_D r d).map (fun x => 1 / x)).sum)) =
        fun c2 => (1 / c2) * (((C_D r d).map (fun x => 1 / x)).sum)⁻¹ from
      funext fun c2 => div_eq_mul_inv _ _]
    rw [List.sum_map_mul_right, mul_inv_cancel₀ (ne_of_gt hSpos)]

/-- Witness for C9: concrete donor score lists of length 2. -/
theorem c9_weights_pos_sum_one_witness :
    (∀ w ∈ weights ([1, 2] : List ℚ) [1, 3], 0 < w) ∧
      (weights ([1, 2] : List ℚ) [1, 3]).sum = 1 :=
  c9_weights_pos_sum_one [1, 2] [1, 3] (by decide) (by decide)

/-- Claim C10: when no mask cell is positive there are no region codes and
the returned image is exactly the input cloudy image. -/
theorem c10_empty_mask_identity (sqrt : α → α) (cfg : Config α)
    (h : ∀ r c, r < cfg.R → c < cfg.C → cfg.mask r c = 0 ∨ cfg.mask r c = -1) :
    cloud_fill sqrt cfg = some cfg.cloudy := by
  have hcodes : cloud_codes cfg = [] := by
    rw [cloud_codes, List.filter_eq_nil_iff]
    intro v hv
    rw [mem_foldr_insertUnique, mask_values] at hv
    obtain ⟨i, hi, rfl⟩ := List.mem_map.mp hv
    have hiR := rowOf_lt (C := cfg.C) (List.mem_range.mp hi)
    have hiC := colOf_lt (R := cfg.R) (List.mem_range.mp hi)
    rcases h _ _ hiR hiC with he | he <;> simp [he]
  rw [cloud_fill, hcodes]
  rfl

/-- Witness for C10: the all-clear configuration `cfgD` is returned
unchanged. -/
theorem c10_empty_mask_identity_witness : cloud_fill Real.sqrt cfgD = some cfgD.cloudy :=
  c10_empty_mask_identity Real.sqrt cfgD (fun _ _ _ _ => Or.inl rfl)

end CloudFill
